import Mathlib

/-!
Verification of the font-style option-normalization and conversion-rule
pipeline of the `ckeditor5-custom-font` package, shallowly embedded from
`src/fontstyle.js`, `src/fontstyle/fontstyleediting.js` and
`src/fontstyle/utils.js`.
-/

namespace CustomFont

/-- Markup (view) descriptor of an option: wrapper element name, optional
class, inline styles and an optional conversion priority
(`module:font/fontstyle~FontStyleOption`'s `view`). -/
structure ViewDescriptor where
  name : String
  classes : Option String := none
  styles : List (String × String) := []
  priority : Option Nat := none
deriving Repr, DecidableEq

/-- A normalized font-style option (`FontStyleOption`): title, canonical
model value (`none` encodes JS `undefined`, the sentinel used to remove the
attribute) and optional view descriptor. -/
structure FontStyleOption where
  title : Option String := none
  model : Option String := none
  view : Option ViewDescriptor := none
deriving Repr, DecidableEq

/-- A raw object entry of the configuration (`{ title?, model?, view? }`).
`none` encodes an absent field. -/
structure RawObj where
  title : Option String := none
  model : Option String := none
  view : Option ViewDescriptor := none
deriving Repr, DecidableEq

/-- One raw element of `config.fontStyle.options`: a string, a JS number
(represented by its canonical decimal numeral, i.e. its `String(n)`
rendering) or an object. -/
inductive RawOption where
  | str (s : String)
  | num (s : String)
  | obj (o : RawObj)
deriving Repr, DecidableEq

/-- The structured configuration errors thrown by the module
(`font-style-invalid-definition` and
`font-style-invalid-use-of-named-presets`, the latter carrying the
offending model values as payload). -/
inductive CKError where
  | invalidDefinition (o : RawObj)
  | invalidUseOfNamedPresets (presets : List String)
deriving Repr, DecidableEq

/-- JS string truthiness for an optional string field: falsy iff absent
(`undefined`) or the empty string. -/
def truthyStr : Option String → Bool
  | none => false
  | some s => !s.isEmpty

/-- Whitespace skipped by the JS numeric parsers. -/
def isWs (c : Char) : Bool :=
  c = ' ' || c = '\t' || c = '\n' || c = '\r'

/-- Strip leading zero characters. -/
def stripZerosFront (l : List Char) : List Char := l.dropWhile (· = '0')

/-- Strip trailing zero characters. -/
def stripZerosBack (l : List Char) : List Char :=
  (l.reverse.dropWhile (· = '0')).reverse

/-- Canonical JS rendering of a finite decimal given as sign, integer
digits and fraction digits (leading zeros of the integer part and trailing
zeros of the fraction removed; a zero value prints as `"0"`, also when
negative). -/
def renderDecimal (neg : Bool) (intD fracD : List Char) : String :=
  let ip := stripZerosFront intD
  let fp := stripZerosBack fracD
  if ip.isEmpty && fp.isEmpty then "0"
  else
    (if neg then "-" else "")
      ++ (if ip.isEmpty then "0" else String.mk ip)
      ++ (if fp.isEmpty then "" else "." ++ String.mk fp)

/-- Strip an optional leading sign, returning whether the value is
negative and the remaining characters. -/
def splitSign (cs : List Char) : Bool × List Char :=
  match cs with
  | [] => (false, [])
  | c :: rest =>
    if c = '-' then (true, rest)
    else if c = '+' then (false, rest)
    else (false, c :: rest)

/-- The fraction digits following a decimal point, if any. -/
def fracPart : List Char → List Char
  | [] => []
  | c :: r => if c = '.' then r.takeWhile Char.isDigit else []

/-- JS `parseFloat`, modelled on decimal literals (leading whitespace,
optional sign, digits, optional fraction; trailing garbage ignored), the
forms the configuration surface uses. Returns `none` for `NaN`, otherwise
the canonical rendering of the parsed value. -/
def jsParseFloat (s : String) : Option String :=
  let cs := s.toList.dropWhile isWs
  let sgn := splitSign cs
  let intD := sgn.2.takeWhile Char.isDigit
  let fracD := fracPart (sgn.2.dropWhile Char.isDigit)
  if intD.isEmpty && fracD.isEmpty then none
  else some (renderDecimal sgn.1 intD fracD)

/-- JS `parseInt(s, 10)`: leading whitespace, optional sign, then the
leading run of decimal digits; `none` for `NaN`. -/
def jsParseInt (s : String) : Option Int :=
  let cs := s.toList.dropWhile isWs
  let sgn := splitSign cs
  let ds := sgn.2.takeWhile Char.isDigit
  if ds.isEmpty then none
  else
    let n : Nat := ds.foldl (fun a c => a * 10 + (c.toNat - 48)) 0
    some (if sgn.1 then -(n : Int) else (n : Int))

/-- The named-preset table of `utils.js` (`namedPresets`): each getter
returns the preset for `tiny`, `small`, `big` and `huge`. -/
def namedPreset (s : String) : Option FontStyleOption :=
  if s = "tiny" then
    some { title := some "Tiny", model := some "tiny",
           view := some { name := "span", classes := some "text-tiny",
                          styles := [], priority := some 7 } }
  else if s = "small" then
    some { title := some "Small", model := some "small",
           view := some { name := "span", classes := some "text-small",
                          styles := [], priority := some 7 } }
  else if s = "big" then
    some { title := some "Big", model := some "big",
           view := some { name := "span", classes := some "text-big",
                          styles := [], priority := some 7 } }
  else if s = "huge" then
    some { title := some "Huge", model := some "huge",
           view := some { name := "span", classes := some "text-huge",
                          styles := [], priority := some 7 } }
  else none

/-- `findPreset` of `utils.js`: `namedPresets[definition] ||
namedPresets[definition.model]`. A number or plain object is never a
preset key; an object is looked up through its `model` field. -/
def findPreset : RawOption → Option FontStyleOption
  | .str s => namedPreset s
  | .num _ => none
  | .obj o => match o.model with
    | some m => namedPreset m
    | none => none

/-- `isFullItemDefinition` of `utils.js`: an object with truthy `title`,
`model` and `view`. -/
def isFullItemDefinition : RawOption → Bool
  | .obj o => truthyStr o.title && truthyStr o.model && o.view.isSome
  | _ => false

/-- `isNumericalDefinition` of `utils.js`: for an object, throw
`font-style-invalid-definition` when `model` is falsy, otherwise parse the
`model`; for a scalar, parse the value itself. Returns `true` exactly when
the parse yields `NaN`. -/
def isNumericalDefinition : RawOption → Except CKError Bool
  | .obj o =>
    if truthyStr o.model then
      .ok (jsParseFloat (o.model.getD "")).isNone
    else
      .error (.invalidDefinition o)
  | .str s => .ok (jsParseFloat s).isNone
  | .num s => .ok (jsParseFloat s).isNone

/-- `attachPriority` of `utils.js`: when the view's `priority` is falsy
(absent or `0`), set it to the constant `7`. -/
def attachPriority (d : FontStyleOption) : FontStyleOption :=
  match d.view with
  | none => d
  | some v =>
    if v.priority = none || v.priority = some 0 then
      { d with view := some { v with priority := some 7 } }
    else d

/-- `generatePixelPreset` of `utils.js`: a string or number is expanded to
`{ title: String(x), model: parseFloat(x) ++ "px" }`; an object keeps its
fields. In each case the view becomes the span carrying
`font-style: model`, and the priority is attached. -/
def generatePixelPreset : RawOption → FontStyleOption
  | .str s =>
    let model := (jsParseFloat s).getD "NaN" ++ "px"
    attachPriority
      { title := some s, model := some model,
        view := some { name := "span", classes := none,
                       styles := [("font-style", model)], priority := none } }
  | .num s =>
    let model := (jsParseFloat s).getD "NaN" ++ "px"
    attachPriority
      { title := some s, model := some model,
        view := some { name := "span", classes := none,
                       styles := [("font-style", model)], priority := none } }
  | .obj o =>
    attachPriority
      { title := o.title, model := o.model,
        view := some { name := "span", classes := none,
                       styles := [("font-style", o.model.getD "")],
                       priority := none } }

/-- The fields of a full object definition read back as an option. -/
def asFullOption : RawOption → FontStyleOption
  | .obj o => { title := o.title, model := o.model, view := o.view }
  | .str s => { title := some s }
  | .num s => { title := some s }

/-- `getOptionDefinition` of `utils.js`: full definition, then preset
lookup, then the `"default"` sentinel, then numeric detection (which may
throw), then pixel synthesis. `ok none` encodes the JS `undefined` result
for a dropped element. -/
def getOptionDefinition (option : RawOption) : Except CKError (Option FontStyleOption) :=
  if isFullItemDefinition option then
    .ok (some (attachPriority (asFullOption option)))
  else
    match findPreset option with
    | some preset => .ok (some (attachPriority preset))
    | none =>
      if option = RawOption.str "default" then
        .ok (some { title := some "Default", model := none, view := none })
      else
        match isNumericalDefinition option with
        | .error e => .error e
        | .ok true => .ok none
        | .ok false => .ok (some (generatePixelPreset option))

/-- The `.map(getOptionDefinition)` step of `normalizeOptions`, with the
first thrown error propagated. -/
def mapOptions : List RawOption → Except CKError (List (Option FontStyleOption))
  | [] => .ok []
  | item :: rest => do
    let o ← getOptionDefinition item
    let os ← mapOptions rest
    return o :: os

/-- `normalizeOptions` of `utils.js`: map each configured element through
`getOptionDefinition`, then filter out the `undefined` results. -/
def normalizeOptions (configuredOptions : List RawOption) :
    Except CKError (List FontStyleOption) :=
  (mapOptions configuredOptions).map (fun opts => opts.filterMap id)

/-- The model attribute key handled by the feature (`FONT_STYLE`). -/
def FONT_STYLE : String := "fontStyle"

/-- The fixed keyword table of `fontstyleediting.js` (`styleFontStyle`)
mapping legacy `<font style="..">` levels to CSS `font-style` keywords;
levels 0 and 1 both map to the first keyword. -/
def styleFontStyle : List String :=
  ["x-small", "x-small", "small", "medium", "large", "x-large", "xx-large", "xxx-large"]

/-- Character-level body of the legacy attribute matcher. -/
def legacyPatternChars : List Char → Bool
  | [] => false
  | c :: rest =>
    let ds := if c = '+' || c = '-' then rest else c :: rest
    decide (1 ≤ ds.length) && decide (ds.length ≤ 3) && ds.all Char.isDigit

/-- The view matcher regular expression of the legacy upcast converter,
`^[+-]?\d{1,3}$`: an optional sign followed by one to three digits and
nothing else. -/
def legacyStylePattern (s : String) : Bool :=
  legacyPatternChars s.toList

/-- `value[0] === '-' || value[0] === '+'` of the legacy converter. -/
def startsWithSign (s : String) : Bool :=
  match s.toList with
  | [] => false
  | c :: _ => c = '-' || c = '+'

/-- The legacy upcast model-value callback of
`_prepareCompatibilityConverter`: `parseInt` the attribute text, add the
baseline 3 when the text starts with a sign, clamp into
`[0, styleFontStyle.length - 1]` and index the keyword table. `none`
encodes the `undefined` a `NaN` parse would produce. -/
def legacyDecode (s : String) : Option String :=
  match jsParseInt s with
  | none => none
  | some v =>
    let style := if startsWithSign s then 3 + v else v
    let maxStyle : Int := (styleFontStyle.length : Int) - 1
    let clampedStyle := min (max style 0) maxStyle
    styleFontStyle[clampedStyle.toNat]?

/-- A plain CSS numeral: optional sign, digits, optional fraction, fully
consumed, with at least one digit. -/
def isPlainNumeral (s : String) : Bool :=
  let cs := s.toList
  let cs1 := match cs with
    | c :: rest => if c = '+' || c = '-' then rest else cs
    | [] => []
  let intD := cs1.takeWhile Char.isDigit
  let rest := cs1.dropWhile Char.isDigit
  match rest with
  | [] => !intD.isEmpty
  | '.' :: fr => !(intD.isEmpty && fr.isEmpty) && fr.all Char.isDigit && !fr.isEmpty
  | _ => false

/-- The CSS length units. -/
def cssUnits : List String :=
  ["px", "cm", "mm", "in", "pc", "pt", "ch", "em", "ex", "rem", "vh", "vw", "vmin", "vmax"]

/-- Whether `suffix` is a suffix of `s`, computed on character lists. -/
def strEndsWith (s suffix : String) : Bool :=
  suffix.toList.isSuffixOf s.toList

/-- Drop the last `n` characters of `s`. -/
def strDropRight (s : String) (n : Nat) : String :=
  String.mk (s.toList.take (s.toList.length - n))

/-- Modelled from the spec: the external engine helper `isLength` (from
`ckeditor5/src/engine`, outside this repository's sources) deciding
whether a string is a CSS length value — a numeral followed by a length
unit, or plain zero. -/
def isLength (s : String) : Bool :=
  s = "0" || cssUnits.any (fun u => strEndsWith s u && isPlainNumeral (strDropRight s u.length))

/-- Modelled from the spec: the external engine helper `isPercentage`
(from `ckeditor5/src/engine`, outside this repository's sources) deciding
whether a string is a CSS percentage value — a numeral followed by `%`. -/
def isPercentage (s : String) : Bool :=
  strEndsWith s "%" && isPlainNumeral (strDropRight s 1)

/-- The declarative two-way converter definition consumed by the host
engine: the model attribute key, its allowed values, and the view
descriptor each value renders as. -/
structure ConverterDefinition where
  modelKey : String
  modelValues : List String
  view : List (String × ViewDescriptor)
deriving Repr, DecidableEq

/-- Modelled from the spec: `buildDefinition` (in the repository's shared
`utils.js`, outside the provided sources) builds the strict declarative
two-way definition from the filtered option list, collecting each option's
model value and pairing it with its view descriptor. -/
def buildDefinition (key : String) (options : List FontStyleOption) :
    ConverterDefinition :=
  { modelKey := key
  , modelValues := options.filterMap (fun o => o.model)
  , view := options.filterMap (fun o =>
      match o.model, o.view with
      | some m, some v => some (m, v)
      | _, _ => none) }

/-- One conversion rule registered with the host engine during `init`. -/
inductive ConversionRule where
  | attributeToElement (d : ConverterDefinition)
  | anyValueDowncast (key : String)
  | anyValueUpcast (key : String)
  | compatibilityUpcast (key : String)
deriving Repr, DecidableEq

/-- `_prepareAnyValueConverters`: reject the definition when any model
value is neither a length nor a percentage (throwing
`font-style-invalid-use-of-named-presets` with the offending values as
payload), otherwise register the permissive downcast and upcast rules. -/
def prepareAnyValueConverters (definition : ConverterDefinition) :
    Except CKError (List ConversionRule) :=
  let presets := definition.modelValues.filter
    (fun value => !isLength value && !isPercentage value)
  if !presets.isEmpty then
    .error (.invalidUseOfNamedPresets presets)
  else
    .ok [.anyValueDowncast FONT_STYLE, .anyValueUpcast FONT_STYLE]

/-- The conversion set-up of `FontStyleEditing.init`: normalize the
configured options, keep those with a truthy model, build the strict
definition, then either register the permissive converters followed by the
legacy-compatibility converter (`supportAllValues = true`) or the single
strict two-way rule (`supportAllValues = false`). -/
def buildRuleSet (configuredOptions : List RawOption) (supportAllValues : Bool) :
    Except CKError (List ConversionRule) := do
  let normalized ← normalizeOptions configuredOptions
  let options := normalized.filter (fun item => truthyStr item.model)
  let definition := buildDefinition FONT_STYLE options
  if supportAllValues then
    let anyRules ← prepareAnyValueConverters definition
    return anyRules ++ [.compatibilityUpcast FONT_STYLE]
  else
    return [.attributeToElement definition]

/-- The option list `init` hands to the rule builder: the normalized
options restricted to those with a truthy model
(`.filter( item => item.model )`). -/
def filteredOptions (opts : List RawOption) : Except CKError (List FontStyleOption) :=
  (normalizeOptions opts).map (List.filter (fun item => truthyStr item.model))

/-- Whether a built rule set contains a given rule (`false` when the build
failed). -/
def ruleSetHas (r : ConversionRule) : Except CKError (List ConversionRule) → Bool
  | .error _ => false
  | .ok rules => rules.contains r

/-- An attribute element produced by the downcast writer: element name,
attributes and priority. -/
structure AttributeElement where
  name : String
  attrs : List (String × String)
  priority : Nat
deriving Repr, DecidableEq

/-- The permissive downcast view callback of
`_prepareAnyValueConverters`: a falsy attribute value (absent or empty)
renders nothing; otherwise a `span` carrying the inline style
`font-style:<value>` at priority 7. -/
def anyValueDowncastView (attributeValue : Option String) : Option AttributeElement :=
  match attributeValue with
  | none => none
  | some v =>
    if v.isEmpty then none
    else some { name := "span", attrs := [("style", "font-style:" ++ v)], priority := 7 }

/-- A view element as seen by the upcast converters: name, inline styles
and attributes. -/
structure UpcastViewElement where
  name : String
  styles : List (String × String) := []
  attrs : List (String × String) := []
deriving Repr, DecidableEq

/-- `viewElement.getStyle(key)`. -/
def getStyle (e : UpcastViewElement) (key : String) : Option String :=
  (e.styles.find? (fun p => p.1 = key)).map (fun p => p.2)

/-- Whether the permissive upcast matcher (`span` with a `font-style`
inline style matching `/.*/`) accepts a view element. -/
def anyValueUpcastMatches (e : UpcastViewElement) : Bool :=
  e.name = "span" && (getStyle e "font-style").isSome

/-- The permissive upcast model-value callback:
`viewElement.getStyle('font-style')`, the raw style value. -/
def anyValueUpcastValue (e : UpcastViewElement) : Option String :=
  getStyle e "font-style"

/-- Whether a rule-set build succeeds. -/
def buildSucceeds (opts : List RawOption) (supportAllValues : Bool) : Bool :=
  match buildRuleSet opts supportAllValues with
  | .ok _ => true
  | .error _ => false

/-- The value of a decimal digit string read positionally, most
significant digit first (48 is the code point of the digit zero). -/
def decimalValue : List Char → Nat
  | [] => 0
  | c :: r => (c.toNat - 48) * 10 ^ r.length + decimalValue r

/-- Character-level body of `legacyClaimIndex`. -/
def claimIndexChars : List Char → Nat
  | [] => 0
  | c :: rest =>
    let signed := c = '+' || c = '-'
    let ds := if signed then rest else c :: rest
    let mag : Int := decimalValue ds
    let v : Int := if c = '-' then -mag else mag
    let level := if signed then 3 + v else v
    (min (max level 0) 7).toNat

/-- The level index the specification ascribes to a legacy attribute text:
the digits read as an integer, negated under a leading `-`, shifted by the
baseline 3 when a sign is present, then clamped into `[0, 7]`. -/
def legacyClaimIndex (s : String) : Nat :=
  claimIndexChars s.toList

/-! Supporting lemmas. -/

theorem takeWhile_of_all {p : Char → Bool} :
    ∀ l : List Char, l.all p = true → l.takeWhile p = l := by
  intro l h
  induction l with
  | nil => rfl
  | cons c r ih =>
    simp only [List.all_cons, Bool.and_eq_true] at h
    simp [List.takeWhile_cons, h.1, ih h.2]

theorem foldl_digits (ds : List Char) (a : Nat) :
    ds.foldl (fun a c => a * 10 + (c.toNat - 48)) a
      = a * 10 ^ ds.length + decimalValue ds := by
  induction ds generalizing a with
  | nil => simp [decimalValue]
  | cons c r ih =>
    simp only [List.foldl_cons, decimalValue, List.length_cons]
    rw [ih]
    ring

/-- Claim C1 (corrected): the legacy-compatibility upcast rule is
registered in every successful build of the conversion rule set with
`supportAllValues = true`, and in no build with
`supportAllValues = false`. -/
theorem compat_rule_registration (opts : List RawOption) (rules : List ConversionRule) :
    (buildRuleSet opts true = .ok rules →
        ConversionRule.compatibilityUpcast FONT_STYLE ∈ rules)
    ∧ (buildRuleSet opts false = .ok rules →
        ConversionRule.compatibilityUpcast FONT_STYLE ∉ rules) := by
  constructor
  · intro h
    unfold buildRuleSet at h
    cases hn : normalizeOptions opts with
    | error e => rw [hn] at h; simp [Bind.bind, Except.bind] at h
    | ok normalized =>
      rw [hn] at h
      simp only [Bind.bind, Except.bind, if_true] at h
      cases hp : prepareAnyValueConverters
          (buildDefinition FONT_STYLE (normalized.filter (fun item => truthyStr item.model))) with
      | error e => rw [hp] at h; simp at h
      | ok anyRules =>
        rw [hp] at h
        simp only [pure, Except.pure, Except.ok.injEq] at h
        subst h
        exact List.mem_append.mpr (Or.inr (List.mem_singleton.mpr rfl))
  · intro h
    unfold buildRuleSet at h
    cases hn : normalizeOptions opts with
    | error e => rw [hn] at h; simp [Bind.bind, Except.bind] at h
    | ok normalized =>
      rw [hn] at h
      simp only [Bind.bind, Except.bind, Bool.false_eq_true, if_false, pure,
        Except.pure, Except.ok.injEq] at h
      subst h
      simp

/-- Claim C1 counterexample: with the default option list and
`supportAllValues = false`, the build succeeds yet the rule set does not
contain the legacy-compatibility upcast rule, refuting "registered in
every build ... for both supportAllValues = true and false". -/
theorem compat_rule_missing_in_strict_build :
    buildSucceeds [.str "tiny", .str "small", .str "default", .str "big", .str "huge"] false = true
    ∧ ruleSetHas (.compatibilityUpcast FONT_STYLE)
        (buildRuleSet [.str "tiny", .str "small", .str "default", .str "big", .str "huge"] false)
      = false := by
  exact ⟨rfl, rfl⟩

/-- Claim C1 witness: the amended theorem applied to a concrete
permissive build. -/
theorem compat_rule_registration_witness :
    ConversionRule.compatibilityUpcast FONT_STYLE ∈
      [ConversionRule.anyValueDowncast FONT_STYLE,
       ConversionRule.anyValueUpcast FONT_STYLE,
       ConversionRule.compatibilityUpcast FONT_STYLE] :=
  (compat_rule_registration [.num "9"]
    [ConversionRule.anyValueDowncast FONT_STYLE,
     ConversionRule.anyValueUpcast FONT_STYLE,
     ConversionRule.compatibilityUpcast FONT_STYLE]).1 (by rfl)

theorem digit_not_special {c : Char} (h : c.isDigit = true) :
    isWs c = false ∧ c ≠ '+' ∧ c ≠ '-' := by
  refine ⟨?_, ?_, ?_⟩
  · rcases eq_or_ne c ' ' with rfl | h1
    · exact absurd h (by decide)
    · rcases eq_or_ne c '\t' with rfl | h2
      · exact absurd h (by decide)
      · rcases eq_or_ne c '\n' with rfl | h3
        · exact absurd h (by decide)
        · rcases eq_or_ne c '\r' with rfl | h4
          · exact absurd h (by decide)
          · simp [isWs, h1, h2, h3, h4]
  · rintro rfl; exact absurd h (by decide)
  · rintro rfl; exact absurd h (by decide)

theorem jsParseInt_signed (s : String) (c : Char) (ds : List Char)
    (hs : s.toList = c :: ds) (hsgn : c = '+' ∨ c = '-')
    (hne : ds ≠ []) (hd : ds.all Char.isDigit = true) :
    jsParseInt s
      = some (if c = '-' then -((decimalValue ds : Int)) else ((decimalValue ds : Int))) := by
  have hs' : s.data = c :: ds := hs
  have htw := takeWhile_of_all ds hd
  have hemp : ds.isEmpty = false := by
    cases ds with
    | nil => exact absurd rfl hne
    | cons a l => rfl
  rcases hsgn with rfl | rfl
  · simp [jsParseInt, String.toList, hs', List.dropWhile_cons, isWs, splitSign, htw, hemp,
      foldl_digits]
  · simp [jsParseInt, String.toList, hs', List.dropWhile_cons, isWs, splitSign, htw, hemp,
      foldl_digits]

theorem jsParseInt_unsigned (s : String) (c : Char) (rest : List Char)
    (hs : s.toList = c :: rest) (hd : (c :: rest).all Char.isDigit = true) :
    jsParseInt s = some ((decimalValue (c :: rest) : Int)) := by
  have hs' : s.data = c :: rest := hs
  have hc : c.isDigit = true := by
    simp only [List.all_cons, Bool.and_eq_true] at hd
    exact hd.1
  obtain ⟨hws, hp, hm⟩ := digit_not_special hc
  have htw := takeWhile_of_all _ hd
  simp only [jsParseInt, String.toList, hs', List.dropWhile_cons, hws, splitSign, hp, hm, htw,
    if_false, Bool.false_eq_true, List.isEmpty_cons, ite_false, Option.some.injEq]
  rw [foldl_digits]
  push_cast [decimalValue]
  ring_nf

theorem styleFontStyle_getElem (n : Nat) (h : n < 8) :
    styleFontStyle[n]? = some (styleFontStyle.getD n "") := by
  interval_cases n <;> rfl

theorem clamp_lt_eight (x : Int) : (min (max x 0) 7).toNat < 8 := by
  have h1 : min (max x 0) 7 ≤ 7 := min_le_right _ _
  omega

theorem legacyPatternChars_sign (c : Char) (rest : List Char) (h : c = '+' ∨ c = '-') :
    legacyPatternChars (c :: rest)
      = (decide (1 ≤ rest.length) && decide (rest.length ≤ 3) && rest.all Char.isDigit) := by
  rcases h with rfl | rfl <;> simp [legacyPatternChars]

theorem legacyPatternChars_nosign (c : Char) (rest : List Char)
    (hp : c ≠ '+') (hm : c ≠ '-') :
    legacyPatternChars (c :: rest)
      = (decide (1 ≤ (c :: rest).length) && decide ((c :: rest).length ≤ 3)
          && (c :: rest).all Char.isDigit) := by
  simp [legacyPatternChars, hp, hm]

theorem legacyClaimIndex_cons (s : String) (c : Char) (rest : List Char)
    (hs : s.toList = c :: rest) :
    legacyClaimIndex s = claimIndexChars (c :: rest) := by
  unfold legacyClaimIndex
  rw [hs]

theorem legacyDecode_eq (s : String) (v : Int) (hv : jsParseInt s = some v) :
    legacyDecode s
      = styleFontStyle[(min (max (if startsWithSign s then 3 + v else v) 0)
          ((styleFontStyle.length : Int) - 1)).toNat]? := by
  unfold legacyDecode
  rw [hv]

theorem legacyDecode_of_pattern (s : String) (h : legacyStylePattern s = true) :
    legacyDecode s = some (styleFontStyle.getD (legacyClaimIndex s) "") := by
  unfold legacyStylePattern at h
  cases hs : s.toList with
  | nil =>
    rw [hs] at h
    exact absurd h (by simp [legacyPatternChars])
  | cons c rest =>
    have hs' : s.data = c :: rest := hs
    rw [legacyClaimIndex_cons s c rest hs]
    rw [hs] at h
    have hlen : (styleFontStyle.length : Int) - 1 = 7 := by decide
    by_cases hp : c = '+'
    · subst hp
      rw [legacyPatternChars_sign _ _ (Or.inl rfl)] at h
      simp only [Bool.and_eq_true, decide_eq_true_eq] at h
      obtain ⟨⟨h1, h2⟩, h3⟩ := h
      have hne : rest ≠ [] := List.length_pos.mp h1
      have hparse := jsParseInt_signed s '+' rest hs (Or.inl rfl) hne h3
      rw [if_neg (by decide : ¬(('+' : Char) = '-'))] at hparse
      have hrel : startsWithSign s = true := by
        simp [startsWithSign, hs']
      rw [legacyDecode_eq s _ hparse, hrel, if_pos rfl, hlen,
        styleFontStyle_getElem _ (clamp_lt_eight _)]
      simp [claimIndexChars]
    · by_cases hm : c = '-'
      · subst hm
        rw [legacyPatternChars_sign _ _ (Or.inr rfl)] at h
        simp only [Bool.and_eq_true, decide_eq_true_eq] at h
        obtain ⟨⟨h1, h2⟩, h3⟩ := h
        have hne : rest ≠ [] := List.length_pos.mp h1
        have hparse := jsParseInt_signed s '-' rest hs (Or.inr rfl) hne h3
        rw [if_pos (rfl : ('-' : Char) = '-')] at hparse
        have hrel : startsWithSign s = true := by
          simp [startsWithSign, hs']
        rw [legacyDecode_eq s _ hparse, hrel, if_pos rfl, hlen,
          styleFontStyle_getElem _ (clamp_lt_eight _)]
        simp [claimIndexChars]
      · rw [legacyPatternChars_nosign _ _ hp hm] at h
        simp only [Bool.and_eq_true, decide_eq_true_eq] at h
        obtain ⟨⟨h1, h2⟩, h3⟩ := h
        have hparse := jsParseInt_unsigned s c rest hs h3
        have hrel : startsWithSign s = false := by
          simp [startsWithSign, hs', hp, hm]
        rw [legacyDecode_eq s _ hparse, hrel, if_neg (by simp), hlen,
          styleFontStyle_getElem _ (clamp_lt_eight _)]
        simp [claimIndexChars, hp, hm]

/-- Claim C2: on every attribute text matching the legacy pattern, the
legacy decoder parses the integer, shifts signed values by the baseline 3,
clamps into `[0, 7]` and returns the keyword at the clamped index of the
fixed 8-entry table — never failing — and in particular `"-999"` yields
the keyword at index 0, `"2"` the keyword at index 2, and `"+2"` the
keyword at index 5. -/
theorem legacy_decoder_correct :
    (∀ s : String, legacyStylePattern s = true →
        legacyDecode s = some (styleFontStyle.getD (legacyClaimIndex s) ""))
    ∧ legacyDecode "-999" = some (styleFontStyle.getD 0 "")
    ∧ legacyDecode "2" = some (styleFontStyle.getD 2 "")
    ∧ legacyDecode "+2" = some (styleFontStyle.getD 5 "") :=
  ⟨legacyDecode_of_pattern, by rfl, by rfl, by rfl⟩

/-- Claim C2 witness: the decoder theorem applied to the concrete matching
text `"+5"`. -/
theorem legacy_decoder_correct_witness :
    legacyStylePattern "+5" = true
    ∧ legacyDecode "+5" = some (styleFontStyle.getD (legacyClaimIndex "+5") "") :=
  ⟨by rfl, legacy_decoder_correct.1 "+5" (by rfl)⟩

/-- Claim C3: building the permissive rule set fails with the
invalid-named-presets configuration error, its payload listing the
offending models, whenever some configured model is neither a length nor a
percentage (for example the named preset `"small"`); with every model a
length or percentage the build succeeds. -/
theorem permissive_mode_check (d : ConverterDefinition) :
    ((∃ m ∈ d.modelValues, isLength m = false ∧ isPercentage m = false) →
        prepareAnyValueConverters d
          = .error (.invalidUseOfNamedPresets
              (d.modelValues.filter (fun v => !isLength v && !isPercentage v))))
    ∧ ((∀ m ∈ d.modelValues, isLength m = true ∨ isPercentage m = true) →
        prepareAnyValueConverters d
          = .ok [.anyValueDowncast FONT_STYLE, .anyValueUpcast FONT_STYLE])
    ∧ buildRuleSet [.num "9", .str "small"] true
        = .error (.invalidUseOfNamedPresets ["small"]) := by
  refine ⟨?_, ?_, by rfl⟩
  · rintro ⟨m, hm, hl, hpc⟩
    unfold prepareAnyValueConverters
    have hmem : m ∈ d.modelValues.filter (fun v => !isLength v && !isPercentage v) := by
      rw [List.mem_filter]
      exact ⟨hm, by simp [hl, hpc]⟩
    have hne : (d.modelValues.filter (fun v => !isLength v && !isPercentage v)).isEmpty
        = false := by
      cases hfe : d.modelValues.filter (fun v => !isLength v && !isPercentage v) with
      | nil => rw [hfe] at hmem; cases hmem
      | cons a l => rfl
    simp [hne]
  · intro hall
    unfold prepareAnyValueConverters
    have hnil : d.modelValues.filter (fun v => !isLength v && !isPercentage v) = [] := by
      rw [List.filter_eq_nil_iff]
      intro a ha
      rcases hall a ha with h | h <;> simp [h]
    simp [hnil]

/-- Claim C3 witness: the permissive check applied to a concrete
definition whose models are all lengths or percentages. -/
theorem permissive_mode_check_witness :
    prepareAnyValueConverters { modelKey := FONT_STYLE, modelValues := ["9px", "100%"], view := [] }
      = .ok [.anyValueDowncast FONT_STYLE, .anyValueUpcast FONT_STYLE] :=
  (permissive_mode_check
    { modelKey := FONT_STYLE, modelValues := ["9px", "100%"], view := [] }).2.1 (by decide)

/-- Claim C4: in permissive mode the downcast maps every non-empty value
to a `span` carrying `font-style:<value>` at priority 7 and an
empty/absent value to nothing, and the upcast maps every `span` carrying
any inline `font-style` value — for example `"13px"`, absent from any
configured option set — to that raw value. -/
theorem permissive_converters_behavior :
    (∀ v : String, v ≠ "" →
        anyValueDowncastView (some v)
          = some { name := "span", attrs := [("style", "font-style:" ++ v)], priority := 7 })
    ∧ anyValueDowncastView none = none
    ∧ anyValueDowncastView (some "") = none
    ∧ (∀ (e : UpcastViewElement) (v : String), e.name = "span" →
        getStyle e "font-style" = some v →
        anyValueUpcastMatches e = true ∧ anyValueUpcastValue e = some v)
    ∧ (anyValueUpcastMatches { name := "span", styles := [("font-style", "13px")], attrs := [] }
          = true
        ∧ anyValueUpcastValue { name := "span", styles := [("font-style", "13px")], attrs := [] }
            = some "13px") := by
  refine ⟨?_, by rfl, by rfl, ?_, by constructor <;> rfl⟩
  · intro v hv
    have hv2 : v.isEmpty = false := by
      cases h : v.isEmpty
      · rfl
      · exact absurd ((String.isEmpty_iff v).mp h) hv
    simp [anyValueDowncastView, hv2]
  · intro e v h1 h2
    refine ⟨?_, ?_⟩
    · simp [anyValueUpcastMatches, h1, h2]
    · simp [anyValueUpcastValue, h2]

/-- Claim C4 witness: the downcast applied to the concrete non-empty value
`"13px"`. -/
theorem permissive_converters_behavior_witness :
    anyValueDowncastView (some "13px")
      = some { name := "span", attrs := [("style", "font-style:" ++ "13px")], priority := 7 } :=
  permissive_converters_behavior.1 "13px" (by decide)

/-- Claim C5 counterexample: an object whose `model` field is present but
holds the empty string also raises `font-style-invalid-definition`,
refuting "raised exactly when ... an object without a model field". -/
theorem missing_model_error_counterexample :
    normalizeOptions [.obj { title := some "X", model := some "", view := none }]
      = .error (.invalidDefinition { title := some "X", model := some "", view := none })
    ∧ ({ title := some "X", model := some "", view := none } : RawObj).model ≠ none :=
  ⟨by rfl, by decide⟩

/-- Claim C5 (corrected): an element reaching the numeric-detection step
raises `font-style-invalid-definition` exactly when it is an object whose
`model` field is absent or empty (JS-falsy); a string or number that fails
numeric parsing is silently dropped; `normalize([{ title: "X" }])`
raises. -/
theorem missing_model_error :
    (∀ o : RawObj, isFullItemDefinition (.obj o) = false → findPreset (.obj o) = none →
        (getOptionDefinition (.obj o) = .error (.invalidDefinition o)
          ↔ truthyStr o.model = false))
    ∧ (∀ s : String, namedPreset s = none → s ≠ "default" → jsParseFloat s = none →
        getOptionDefinition (.str s) = .ok none)
    ∧ (∀ s : String, jsParseFloat s = none → getOptionDefinition (.num s) = .ok none)
    ∧ normalizeOptions [.obj { title := some "X", model := none, view := none }]
        = .error (.invalidDefinition { title := some "X", model := none, view := none }) := by
  refine ⟨?_, ?_, ?_, by rfl⟩
  · intro o hfull hpre
    unfold getOptionDefinition
    rw [hfull]
    simp only [Bool.false_eq_true, if_false, hpre]
    rw [if_neg (by simp)]
    cases ht : truthyStr o.model with
    | true =>
      have hnum : isNumericalDefinition (.obj o)
          = .ok (jsParseFloat (o.model.getD "")).isNone := by
        simp [isNumericalDefinition, ht]
      rw [hnum]
      cases hb : (jsParseFloat (o.model.getD "")).isNone <;> simp
    | false =>
      have hnum : isNumericalDefinition (.obj o) = .error (.invalidDefinition o) := by
        simp [isNumericalDefinition, ht]
      rw [hnum]
      simp
  · intro s hpre hdef hparse
    unfold getOptionDefinition
    rw [if_neg (by simp [isFullItemDefinition])]
    simp only [findPreset, hpre]
    rw [if_neg (by simp [hdef])]
    simp [isNumericalDefinition, hparse]
  · intro s hparse
    unfold getOptionDefinition
    rw [if_neg (by simp [isFullItemDefinition])]
    simp only [findPreset]
    rw [if_neg (by simp)]
    simp [isNumericalDefinition, hparse]

/-- Claim C5 witness: the corrected characterization applied to the
concrete object `{ title: "X" }` and the concrete unparseable string
`"abc"`. -/
theorem missing_model_error_witness :
    (getOptionDefinition (.obj { title := some "X", model := none, view := none })
        = .error (.invalidDefinition { title := some "X", model := none, view := none })
      ↔ truthyStr (none : Option String) = false)
    ∧ getOptionDefinition (.str "abc") = .ok none :=
  ⟨missing_model_error.1 { title := some "X", model := none, view := none }
      (by rfl) (by rfl),
    missing_model_error.2.1 "abc" (by rfl) (by decide) (by rfl)⟩

/-- Claim C6: `normalize([12])` yields exactly the option with model
`"12px"`, `normalize(["12.5"])` the option with model `"12.5px"`,
`normalize(["abc"])` drops its element, and numeric parsing accepts any
string with a leading digit run regardless of what follows. -/
theorem numeric_synthesis :
    normalizeOptions [.num "12"]
      = .ok [{ title := some "12", model := some "12px",
               view := some { name := "span", classes := none,
                              styles := [("font-style", "12px")], priority := some 7 } }]
    ∧ normalizeOptions [.str "12.5"]
      = .ok [{ title := some "12.5", model := some "12.5px",
               view := some { name := "span", classes := none,
                              styles := [("font-style", "12.5px")], priority := some 7 } }]
    ∧ normalizeOptions [.str "abc"] = .ok []
    ∧ (∀ pre post : List Char, pre ≠ [] → pre.all Char.isDigit = true →
        (jsParseFloat (String.mk (pre ++ post))).isSome = true) := by
  refine ⟨by rfl, by rfl, by rfl, ?_⟩
  intro pre post hne hd
  obtain ⟨c, pre1, rfl⟩ := List.exists_cons_of_ne_nil hne
  have hc : c.isDigit = true := by
    simp only [List.all_cons, Bool.and_eq_true] at hd
    exact hd.1
  obtain ⟨hws, hp, hm⟩ := digit_not_special hc
  simp [jsParseFloat, String.toList, List.dropWhile_cons, hws, splitSign, hp, hm,
    List.takeWhile_cons, hc]

/-- Claim C6 witness: the lenient-prefix property applied to the digit
prefix `"1"` followed by the non-numeric suffix `"px"`. -/
theorem numeric_synthesis_witness :
    (jsParseFloat (String.mk (['1'] ++ ['p', 'x']))).isSome = true :=
  numeric_synthesis.2.2.2 ['1'] ['p', 'x'] (by decide) (by decide)

/-- Claim C7 counterexample: the partial object `{ title: "T", model:
"12" }` reaches pixel synthesis, yet the produced model is `"12"`, not the
parsed number followed by `"px"` (`"12px"`). -/
theorem pixel_synthesis_counterexample :
    normalizeOptions [.obj { title := some "T", model := some "12", view := none }]
      = .ok [{ title := some "T", model := some "12",
               view := some { name := "span", classes := none,
                              styles := [("font-style", "12")], priority := some 7 } }]
    ∧ (jsParseFloat "12").getD "" ++ "px" = "12px"
    ∧ ("12" : String) ≠ "12px" :=
  ⟨by rfl, by rfl, by decide⟩

/-- Claim C7 (corrected): a string or number element reaching pixel
synthesis produces the model `"<parsed-number>px"` with the original text
as title; an object element keeps its `title` and `model` unchanged; in
every case the view is the `span` whose styles map `"font-style"` to the
produced option's model value, at the default priority. -/
theorem pixel_synthesis :
    (∀ s : String, jsParseFloat s ≠ none →
        generatePixelPreset (.str s)
          = { title := some s, model := some ((jsParseFloat s).getD "" ++ "px"),
              view := some { name := "span", classes := none,
                             styles := [("font-style", (jsParseFloat s).getD "" ++ "px")],
                             priority := some 7 } })
    ∧ (∀ s : String, jsParseFloat s ≠ none →
        generatePixelPreset (.num s)
          = { title := some s, model := some ((jsParseFloat s).getD "" ++ "px"),
              view := some { name := "span", classes := none,
                             styles := [("font-style", (jsParseFloat s).getD "" ++ "px")],
                             priority := some 7 } })
    ∧ (∀ o : RawObj,
        generatePixelPreset (.obj o)
          = { title := o.title, model := o.model,
              view := some { name := "span", classes := none,
                             styles := [("font-style", o.model.getD "")],
                             priority := some 7 } }) := by
  refine ⟨?_, ?_, ?_⟩
  · intro s hs
    cases hp : jsParseFloat s with
    | none => exact absurd hp hs
    | some r => simp [generatePixelPreset, hp, attachPriority]
  · intro s hs
    cases hp : jsParseFloat s with
    | none => exact absurd hp hs
    | some r => simp [generatePixelPreset, hp, attachPriority]
  · intro o
    simp [generatePixelPreset, attachPriority]

/-- Claim C7 witness: the synthesis characterization applied to the
concrete numeric string `"12"`. -/
theorem pixel_synthesis_witness :
    generatePixelPreset (.str "12")
      = { title := some "12", model := some ((jsParseFloat "12").getD "" ++ "px"),
          view := some { name := "span", classes := none,
                         styles := [("font-style", (jsParseFloat "12").getD "" ++ "px")],
                         priority := some 7 } } :=
  pixel_synthesis.1 "12" (by decide)

theorem attachPriority_view_priority (d : FontStyleOption) (v : ViewDescriptor)
    (h : (attachPriority d).view = some v) : v.priority ≠ none := by
  cases hd : d.view with
  | none => simp [attachPriority, hd] at h
  | some v0 =>
    rcases hv0 : v0.priority with _ | p
    · simp [attachPriority, hd, hv0] at h
      subst h
      simp
    · by_cases hz : p = 0
      · subst hz
        simp [attachPriority, hd, hv0] at h
        subst h
        simp
      · simp [attachPriority, hd, hv0, hz] at h
        subst h
        simp [hv0]

theorem attachPriority_view_isSome (d : FontStyleOption) :
    (attachPriority d).view.isSome = d.view.isSome := by
  unfold attachPriority
  cases hd : d.view with
  | none => simp [hd]
  | some v0 =>
    split
    · rename_i heq
      cases heq
    · rename_i v1 heq
      injection heq with heq1
      subst heq1
      split <;> simp [hd]

theorem namedPreset_view_isSome (s : String) (p : FontStyleOption)
    (h : namedPreset s = some p) : p.view.isSome = true := by
  unfold namedPreset at h
  split at h
  · injection h with h1; subst h1; rfl
  · split at h
    · injection h with h1; subst h1; rfl
    · split at h
      · injection h with h1; subst h1; rfl
      · split at h
        · injection h with h1; subst h1; rfl
        · cases h

theorem findPreset_some (item : RawOption) (p : FontStyleOption)
    (h : findPreset item = some p) : ∃ s, namedPreset s = some p := by
  cases item with
  | str s => exact ⟨s, h⟩
  | num s =>
    have h2 : (none : Option FontStyleOption) = some p := h
    cases h2
  | obj o =>
    have h2 : (match o.model with
        | some m => namedPreset m
        | none => none) = some p := h
    cases hm : o.model with
    | none => rw [hm] at h2; cases h2
    | some m => rw [hm] at h2; exact ⟨m, h2⟩

theorem generatePixelPreset_view_isSome (item : RawOption) :
    (generatePixelPreset item).view.isSome = true := by
  cases item <;> simp [generatePixelPreset, attachPriority_view_isSome]

theorem getOption_view_priority (item : RawOption) (o : FontStyleOption)
    (h : getOptionDefinition item = .ok (some o)) :
    (∀ v, o.view = some v → v.priority ≠ none)
    ∧ (o.view = none → o = { title := some "Default", model := none, view := none }) := by
  unfold getOptionDefinition at h
  split at h
  · rename_i hfull
    injection h with h1
    injection h1 with h2
    subst h2
    refine ⟨fun v hv => attachPriority_view_priority _ v hv, fun hnone => ?_⟩
    exfalso
    cases item with
    | str s => simp [isFullItemDefinition] at hfull
    | num s => simp [isFullItemDefinition] at hfull
    | obj o' =>
      simp only [isFullItemDefinition, Bool.and_eq_true] at hfull
      have hv : (asFullOption (.obj o')).view.isSome = true := hfull.2
      rw [← attachPriority_view_isSome, hnone] at hv
      cases hv
  · split at h
    · rename_i preset hpre
      injection h with h1
      injection h1 with h2
      subst h2
      refine ⟨fun v hv => attachPriority_view_priority _ v hv, fun hnone => ?_⟩
      exfalso
      obtain ⟨s, hp⟩ := findPreset_some item preset hpre
      have hv := namedPreset_view_isSome s preset hp
      rw [← attachPriority_view_isSome, hnone] at hv
      cases hv
    · split at h
      · injection h with h1
        injection h1 with h2
        subst h2
        exact ⟨fun v hv => (by cases hv), fun _ => rfl⟩
      · split at h
        · cases h
        · injection h with h1
          cases h1
        · injection h with h1
          injection h1 with h2
          subst h2
          refine ⟨fun v hv => ?_, fun hnone => ?_⟩
          · cases item <;> exact attachPriority_view_priority _ v hv
          · exfalso
            have hv := generatePixelPreset_view_isSome item
            rw [hnone] at hv
            cases hv

theorem mapOptions_mem (opts : List RawOption) (res : List (Option FontStyleOption))
    (h : mapOptions opts = .ok res) (x : Option FontStyleOption) (hx : x ∈ res) :
    ∃ item, getOptionDefinition item = .ok x := by
  induction opts generalizing res with
  | nil =>
    simp only [mapOptions, Except.ok.injEq] at h
    subst h
    cases hx
  | cons a l ih =>
    simp only [mapOptions, Bind.bind, Except.bind] at h
    cases ha : getOptionDefinition a with
    | error e => rw [ha] at h; cases h
    | ok o1 =>
      rw [ha] at h
      cases hl : mapOptions l with
      | error e => rw [hl] at h; cases h
      | ok os =>
        rw [hl] at h
        simp only [pure, Except.pure, Except.ok.injEq] at h
        subst h
        rcases List.mem_cons.mp hx with rfl | hx2
        · exact ⟨a, ha⟩
        · exact ih os hl hx2

theorem normalize_mem (opts : List RawOption) (res : List FontStyleOption)
    (h : normalizeOptions opts = .ok res) (o : FontStyleOption) (ho : o ∈ res) :
    ∃ item, getOptionDefinition item = .ok (some o) := by
  unfold normalizeOptions at h
  cases hm : mapOptions opts with
  | error e => rw [hm] at h; cases h
  | ok os =>
    rw [hm] at h
    simp only [Except.map, Except.ok.injEq] at h
    subst h
    obtain ⟨x, hx, hxo⟩ := List.mem_filterMap.mp ho
    have hxs : x = some o := hxo
    subst hxs
    exact mapOptions_mem opts os hm (some o) hx

/-- Claim C8: every option produced by `normalizeOptions` that carries a
view descriptor has a set priority; a full definition whose view lacks a
priority gets the constant 7 attached; and the only produced option
without a view is the `"default"` sentinel. -/
theorem priority_always_set :
    (∀ (opts : List RawOption) (res : List FontStyleOption),
        normalizeOptions opts = .ok res →
        ∀ o ∈ res, ∀ v, o.view = some v → v.priority ≠ none)
    ∧ (∀ (o : RawObj) (v0 : ViewDescriptor), o.view = some v0 → v0.priority = none →
        isFullItemDefinition (.obj o) = true →
        getOptionDefinition (.obj o)
          = .ok (some { title := o.title, model := o.model,
                        view := some { v0 with priority := some 7 } }))
    ∧ (∀ (opts : List RawOption) (res : List FontStyleOption),
        normalizeOptions opts = .ok res →
        ∀ o ∈ res, o.view = none →
          o = { title := some "Default", model := none, view := none }) := by
  refine ⟨?_, ?_, ?_⟩
  · intro opts res h o ho v hv
    obtain ⟨item, hitem⟩ := normalize_mem opts res h o ho
    exact (getOption_view_priority item o hitem).1 v hv
  · intro o v0 hview hpri hfull
    unfold getOptionDefinition
    rw [if_pos hfull]
    simp [asFullOption, attachPriority, hview, hpri]
  · intro opts res h o ho hnone
    obtain ⟨item, hitem⟩ := normalize_mem opts res h o ho
    exact (getOption_view_priority item o hitem).2 hnone

/-- Claim C8 witness: the priority invariant applied to the concrete
normalization of `["tiny"]`. -/
theorem priority_always_set_witness :
    ({ name := "span", classes := some "text-tiny", styles := [],
       priority := some 7 } : ViewDescriptor).priority ≠ none :=
  priority_always_set.1 [.str "tiny"]
    [{ title := some "Tiny", model := some "tiny",
       view := some { name := "span", classes := some "text-tiny", styles := [],
                      priority := some 7 } }]
    (by rfl)
    { title := some "Tiny", model := some "tiny",
      view := some { name := "span", classes := some "text-tiny", styles := [],
                     priority := some 7 } }
    (by simp)
    { name := "span", classes := some "text-tiny", styles := [], priority := some 7 }
    (by rfl)

theorem mapOptions_cons (a : RawOption) (l : List RawOption) :
    mapOptions (a :: l)
      = match getOptionDefinition a with
        | .error e => .error e
        | .ok o =>
          match mapOptions l with
          | .error e => .error e
          | .ok os => .ok (o :: os) := by
  cases ha : getOptionDefinition a <;> cases hl : mapOptions l <;>
    simp [mapOptions, Bind.bind, Except.bind, ha, hl, pure, Except.pure]

theorem filteredOptions_default_middle (l1 l2 : List RawOption) :
    filteredOptions (l1 ++ .str "default" :: l2) = filteredOptions (l1 ++ l2) := by
  have hdef : getOptionDefinition (.str "default")
      = .ok (some { title := some "Default", model := none, view := none }) := by rfl
  induction l1 with
  | nil =>
    show filteredOptions (.str "default" :: l2) = filteredOptions l2
    unfold filteredOptions normalizeOptions
    rw [mapOptions_cons, hdef]
    cases hm : mapOptions l2 with
    | error e => rfl
    | ok os =>
      simp [Except.map, List.filterMap_cons, List.filter_cons, truthyStr]
  | cons a l ih =>
    show filteredOptions (a :: (l ++ .str "default" :: l2))
      = filteredOptions (a :: (l ++ l2))
    unfold filteredOptions normalizeOptions
    rw [mapOptions_cons, mapOptions_cons]
    cases ha : getOptionDefinition a with
    | error e => rfl
    | ok o =>
      unfold filteredOptions normalizeOptions at ih
      cases h1 : mapOptions (l ++ .str "default" :: l2) with
      | error e =>
        cases h2 : mapOptions (l ++ l2) with
        | error e2 =>
          rw [h1, h2] at ih
          simp only [Except.map, Except.error.injEq] at ih
          simp [ih]
        | ok os2 =>
          rw [h1, h2] at ih
          simp [Except.map] at ih
      | ok os1 =>
        cases h2 : mapOptions (l ++ l2) with
        | error e2 =>
          rw [h1, h2] at ih
          simp [Except.map] at ih
        | ok os2 =>
          rw [h1, h2] at ih
          simp only [Except.map, Except.ok.injEq] at ih
          cases o with
          | none => simp [Except.map, List.filterMap_cons, ih]
          | some x =>
            simp [Except.map, List.filterMap_cons, List.filter_cons, ih]

theorem buildRuleSet_congr (opts1 opts2 : List RawOption) (b : Bool)
    (h : filteredOptions opts1 = filteredOptions opts2) :
    buildRuleSet opts1 b = buildRuleSet opts2 b := by
  unfold buildRuleSet
  unfold filteredOptions at h
  cases h1 : normalizeOptions opts1 <;> cases h2 : normalizeOptions opts2 <;>
    rw [h1, h2] at h <;>
    simp only [Except.map, Except.error.injEq, Except.ok.injEq] at h
  · simp [Bind.bind, Except.bind, h]
  · cases h
  · cases h
  · simp [Bind.bind, Except.bind, h]

/-- Claim C10: the rule builder only ever sees normalized options with a
truthy model, so a `"default"` entry (the model-less sentinel) is
transparent to rule building — inserting it anywhere leaves the built rule
set unchanged, and a permissive build over numeric options together with
`"default"` succeeds. -/
theorem default_sentinel_transparent :
    (∀ l1 l2 : List RawOption,
        buildRuleSet (l1 ++ .str "default" :: l2) true = buildRuleSet (l1 ++ l2) true)
    ∧ buildSucceeds [.num "9", .num "10", .str "default", .num "14"] true = true :=
  ⟨fun l1 l2 => buildRuleSet_congr _ _ true (filteredOptions_default_middle l1 l2),
    by rfl⟩

end CustomFont
